import Mathlib

/-!
Verification of the LifeLoop multi-agent pipeline core.

Shallow embedding of the publish/subscribe message bus
(`src/core/message_bus.py`), the worker lifecycle loop
(`src/agents/base_agent.py`), the aggregator (`src/agents/insight_agent.py`)
and the email summarizer (`src/agents/email_agent.py`).

Modelling conventions:
- asyncio queues become lists of events together with a capacity bound;
  a bounded-wait `put` with timeout succeeds exactly when the queue has room
  (in the sequential model no consumer can drain a queue during a publish).
- Python dict payloads become a `Value` tree; opaque collaborators
  (ML statistics, LLM text generation, clock readings) become parameters.
- The cooperative worker loop becomes a fuel-indexed trace function; the
  try/except structure of the source is reflected in the shape of the
  trace-producing functions, which are total (no exception can escape).
-/

namespace LifeLoop

/-- Model of the dynamic Python values carried in event payloads. -/
inductive Value where
  | vnone
  | vbool (b : Bool)
  | vint (n : Int)
  | vstr (s : String)
  | vlist (xs : List Value)
  | vdict (kvs : List (String × Value))

/-- Dictionary lookup on a `Value`, used to inspect published payloads. -/
def Value.getKey : Value → String → Option Value
  | .vdict kvs, k => (kvs.find? (fun p => p.1 == k)).map (·.2)
  | _, _ => none

/-- `Event` dataclass from `src/core/message_bus.py`: event type tag,
source agent name, payload, creation timestamp. -/
structure Event where
  event_type : String
  source_agent : String
  data : Value
  timestamp : Nat

/-- Subscriber queues are identified by the order of subscription. -/
abbrev QueueId := Nat

/-- `MessageBus` state: registry from event type to the queues subscribed
under it, the contents of every queue, and the shared capacity bound
(`max_queue_size`, default 1000 in the source). -/
structure MessageBus where
  subscribers : List (String × List QueueId)
  queues : QueueId → List Event
  max_queue_size : Nat
  next_id : QueueId

/-- Python `self.subscribers[t]` with the `t in self.subscribers` guard:
the queues registered under `t`, or `[]` when the key is absent. -/
def lookupSubs (subs : List (String × List QueueId)) (t : String) : List QueueId :=
  match subs.find? (fun p => p.1 == t) with
  | some p => p.2
  | none => []

/-- Registry update performed by `MessageBus.subscribe`: append the new
queue to the list under `event_type`, creating the key if needed. -/
def addSub (subs : List (String × List QueueId)) (t : String) (qid : QueueId) :
    List (String × List QueueId) :=
  if subs.any (fun p => p.1 == t) then
    subs.map (fun p => if p.1 == t then (p.1, p.2 ++ [qid]) else p)
  else
    subs ++ [(t, [qid])]

/-- `MessageBus.subscribe`: create a fresh empty bounded queue, register it
under the given event type, and hand its id back to the caller. -/
def MessageBus.subscribe (bus : MessageBus) (t : String) : MessageBus × QueueId :=
  let qid := bus.next_id
  ({ bus with
      subscribers := addSub bus.subscribers t qid
      queues := fun j => if j = qid then [] else bus.queues j
      next_id := qid + 1 }, qid)

/-- One bounded-wait enqueue (`asyncio.wait_for(queue.put(event), timeout=5.0)`):
succeeds when the queue is below capacity, otherwise times out and the event
is dropped for this queue. Returns the new contents and a success flag. -/
def putEvent (maxsize : Nat) (e : Event) (items : List Event) : List Event × Bool :=
  if items.length < maxsize then (items ++ [e], true) else (items, false)

/-- The `for queue in targets` loop of `MessageBus.publish`: attempt the
bounded-wait enqueue on every target in order, recording per-target success
(`true`) or drop-on-timeout (`false`). -/
def publishAux (maxsize : Nat) (e : Event) :
    List QueueId → (QueueId → List Event) → (QueueId → List Event) × List Bool
  | [], qs => (qs, [])
  | t :: ts, qs =>
    let r := putEvent maxsize e (qs t)
    let rest := publishAux maxsize e ts (fun j => if j = t then r.1 else qs j)
    (rest.1, r.2 :: rest.2)

/-- Fan-out target computation of `MessageBus.publish`: the queues under the
event's own type followed by the queues under the wildcard key. -/
def publishTargets (bus : MessageBus) (e : Event) : List QueueId :=
  lookupSubs bus.subscribers e.event_type ++ lookupSubs bus.subscribers "*"

/-- `MessageBus.publish`: deliver to every fan-out target with a bounded-wait
enqueue each; returns the updated bus and the per-target outcome log
(the observable warning logs for drops). -/
def MessageBus.publish (bus : MessageBus) (e : Event) : MessageBus × List Bool :=
  let r := publishAux bus.max_queue_size e (publishTargets bus e) bus.queues
  ({ bus with queues := r.1 }, r.2)

/-- Iterated bounded-wait enqueue of the same event into one queue. -/
def putTimes (maxsize : Nat) (e : Event) : Nat → List Event → List Event
  | 0, items => items
  | n + 1, items => putTimes maxsize e n (putEvent maxsize e items).1

/-- Concrete bus used to witness the fan-out theorems: queue 0 subscribed to
`"finance_insight"`, queue 1 subscribed to the wildcard, queue 2 subscribed
to `"email_summary"`; all queues empty, default capacity 1000. -/
def sampleBus : MessageBus where
  subscribers := [("finance_insight", [0]), ("*", [1]), ("email_summary", [2])]
  queues := fun _ => []
  max_queue_size := 1000
  next_id := 3

/-- Concrete finance event used in witnesses. -/
def finEvent : Event where
  event_type := "finance_insight"
  source_agent := "FinanceAgent"
  data := Value.vdict [("total", Value.vint 123)]
  timestamp := 0

/-- Second concrete finance event used in the FIFO witness. -/
def finEvent2 : Event where
  event_type := "finance_insight"
  source_agent := "FinanceAgent"
  data := Value.vdict [("total", Value.vint 456)]
  timestamp := 1

/-- Concrete bus with a single wildcard subscriber, used to witness the
double-delivery behaviour for events whose type is literally `"*"`. -/
def wildcardBus : MessageBus where
  subscribers := [("*", [0])]
  queues := fun _ => []
  max_queue_size := 1000
  next_id := 1

/-- Concrete event whose event type is the literal wildcard string. -/
def starEvent : Event where
  event_type := "*"
  source_agent := "OddAgent"
  data := Value.vnone
  timestamp := 0

/-- Per-category accumulated state of the aggregator
(`InsightAgent.collected_insights`): every category starts as Python `None`
and is overwritten with the latest matching event payload. -/
structure CollectedInsights where
  activity : Option Value
  finance : Option Value
  email : Option Value

/-- One step of `InsightAgent._consume_events`: fold one dequeued event into
the accumulated state, keyed on its event type. -/
def consumeEvent (c : CollectedInsights) (e : Event) : CollectedInsights :=
  if e.event_type == "activity_summary" then { c with activity := some e.data }
  else if e.event_type == "finance_insight" then { c with finance := some e.data }
  else if e.event_type == "email_summary" then { c with email := some e.data }
  else c

/-- Draining a sequence of events from the wildcard queue in order. -/
def consumeAll (c : CollectedInsights) (evs : List Event) : CollectedInsights :=
  evs.foldl consumeEvent c

/-- The `data_freshness` map of `InsightAgent.process`:
`key -> (value is not None)`, in the dict's insertion order. -/
def dataFreshness (c : CollectedInsights) : List (String × Bool) :=
  [("activity", c.activity.isSome), ("finance", c.finance.isSome),
   ("email", c.email.isSome)]

/-- The `insight_package` record built by `InsightAgent.process`. -/
structure InsightPackage where
  summary : String
  detailed_insights : CollectedInsights
  timestamp : String
  data_freshness : List (String × Bool)

/-- Build the insight package from the current accumulated state; the
natural-language digest is the opaque text-generation step `genText`
(`_generate_insight_text` in the source) and `now` is the clock reading. -/
def mkInsightPackage (genText : CollectedInsights → String) (now : String)
    (c : CollectedInsights) : InsightPackage where
  summary := genText c
  detailed_insights := c
  timestamp := now
  data_freshness := dataFreshness c

/-- Python `None`-or-dict coercion used when serializing collected state. -/
def optValue : Option Value → Value
  | some v => v
  | none => Value.vnone

/-- Serialization of the accumulated state into the published payload. -/
def collectedToValue (c : CollectedInsights) : Value :=
  Value.vdict [("activity", optValue c.activity), ("finance", optValue c.finance),
               ("email", optValue c.email)]

/-- Serialization of the insight package into the published payload. -/
def pkgToValue (pkg : InsightPackage) : Value :=
  Value.vdict
    [("summary", Value.vstr pkg.summary),
     ("detailed_insights", collectedToValue pkg.detailed_insights),
     ("timestamp", Value.vstr pkg.timestamp),
     ("data_freshness",
       Value.vdict (pkg.data_freshness.map (fun p => (p.1, Value.vbool p.2))))]

/-- History update of `InsightAgent.process` (lines 118-121): append the new
package, then if the length exceeds 100 keep only the last 100 entries. -/
def capHistory (history : List InsightPackage) (pkg : InsightPackage) :
    List InsightPackage :=
  let h := history ++ [pkg]
  if 100 < h.length then h.drop (h.length - 100) else h

/-- Mutable state of the `InsightAgent` worker. -/
structure InsightState where
  collected : CollectedInsights
  insight_history : List InsightPackage

/-- State of a freshly constructed `InsightAgent`: no collected data, empty
history. -/
def initialInsightState : InsightState :=
  ⟨⟨none, none, none⟩, []⟩

/-- `InsightAgent.process`: build the insight package from the accumulated
state, append it to the capped history, and publish exactly one
`daily_insight` event carrying it. -/
def InsightAgent.processStep (genText : CollectedInsights → String) (now : String)
    (t : Nat) (st : InsightState) : InsightState × List Event :=
  let pkg := mkInsightPackage genText now st.collected
  ({ st with insight_history := capHistory st.insight_history pkg },
   [{ event_type := "daily_insight", source_agent := "InsightAgent",
      data := pkgToValue pkg, timestamp := t }])

/-- One full aggregator cycle: drain a batch of events from the wildcard
queue, then run the periodic processing step with the given clock readings. -/
def InsightAgent.cycle (genText : CollectedInsights → String) (st : InsightState)
    (c : List Event × String × Nat) : InsightState :=
  (InsightAgent.processStep genText c.2.1 c.2.2
    { st with collected := consumeAll st.collected c.1 }).1

/-- Aggregator state after a sequence of cycles. -/
def InsightAgent.afterCycles (genText : CollectedInsights → String)
    (st : InsightState) (cs : List (List Event × String × Nat)) : InsightState :=
  cs.foldl (InsightAgent.cycle genText) st

/-- The snapshots appended over a sequence of cycles, in append order. -/
def InsightAgent.cyclePackages (genText : CollectedInsights → String) :
    InsightState → List (List Event × String × Nat) → List InsightPackage
  | _, [] => []
  | st, c :: rest =>
      mkInsightPackage genText c.2.1 (consumeAll st.collected c.1)
        :: InsightAgent.cyclePackages genText (InsightAgent.cycle genText st c) rest

/-- The suffix of the last (at most) `n` elements of a list. -/
def lastN (n : Nat) (l : List α) : List α :=
  l.drop (l.length - n)

/-- One hundred and one empty aggregator cycles, used as a witness input. -/
def trivialCycles : List (List Event × String × Nat) :=
  List.replicate 101 ([], "", 0)

/-- Concrete activity event used in the freshness witness. -/
def actEvent : Event where
  event_type := "activity_summary"
  source_agent := "ActivityAgent"
  data := Value.vdict [("total_activities", Value.vint 100)]
  timestamp := 0

/-- Observable actions of a worker's `run` loop (`BaseAgent.run`): the
initialize outcome, each processing attempt with its outcome, the two kinds
of sleeps, and the final `finally`-block log. -/
inductive Step where
  | initOk
  | initFailed (msg : String)
  | processOk (k : Nat)
  | processErr (k : Nat) (msg : String)
  | sleepInterval
  | sleepRecovery
  | stopped

/-- Whether a step is a processing attempt. -/
def isAttempt : Step → Bool
  | .processOk _ => true
  | .processErr _ _ => true
  | _ => false

/-- The `while self.running` loop of `BaseAgent.run`, as a fuel-indexed trace.
`proc k` is the outcome of the k-th `process()` call (Python exceptions
become `Except.error`), `runningAt k` the value of the running flag observed
at the k-th iteration boundary (mutated externally by `stop()`). The inner
try/except is reflected in both branches continuing the loop: the function is
total and its codomain has no error outcome, so no exception escapes. -/
def agentLoop (proc : Nat → Except String Unit) (runningAt : Nat → Bool) :
    Nat → Nat → List Step
  | 0, _ => []
  | fuel + 1, k =>
    if runningAt k then
      match proc k with
      | .ok _ => .processOk k :: .sleepInterval :: agentLoop proc runningAt fuel (k + 1)
      | .error msg => .processErr k msg :: .sleepRecovery :: agentLoop proc runningAt fuel (k + 1)
    else []

/-- `BaseAgent.run`: initialize once inside the outer try; on success enter
the processing loop, on failure log and fall through (the worker never enters
the loop); the `finally` block always logs the stop. Total: no exception
escapes `run`. -/
def agentRun (initRes : Except String Unit) (proc : Nat → Except String Unit)
    (runningAt : Nat → Bool) (fuel : Nat) : List Step :=
  (match initRes with
   | .ok _ => Step.initOk :: agentLoop proc runningAt fuel 0
   | .error msg => [Step.initFailed msg]) ++ [Step.stopped]

/-- Email record of `EmailAgent.mock_emails`; the Python `from` field is
named `sender` because `from` is a reserved word here. -/
structure Email where
  id : Nat
  sender : String
  subject : String
  body : String
  timestamp : String
  priority : String

/-- `EmailAgent._create_rule_based_summary`: partition the emails by
priority string, report the total count, and for each non-empty group its
count (plus up to two urgent subjects), joined by single spaces. -/
def EmailAgent.create_rule_based_summary (emails : List Email) : String :=
  let high_priority := emails.filter (fun e => e.priority == "high")
  let medium_priority := emails.filter (fun e => e.priority == "medium")
  let low_priority := emails.filter (fun e => e.priority == "low")
  let summary_parts := ["You have " ++ toString emails.length ++ " unread messages."]
  let summary_parts := summary_parts ++
    (if high_priority.isEmpty then [] else
      ["\n🔴 " ++ toString high_priority.length ++ " urgent message(s): " ++
        String.intercalate ", "
          ((high_priority.take 2).map (fun e => "\"" ++ e.subject ++ "\""))])
  let summary_parts := summary_parts ++
    (if medium_priority.isEmpty then [] else
      ["\n🟡 " ++ toString medium_priority.length ++ " medium priority message(s)"])
  let summary_parts := summary_parts ++
    (if low_priority.isEmpty then [] else
      ["\n🟢 " ++ toString low_priority.length ++ " low priority message(s)"])
  String.intercalate " " summary_parts

/-- Expected summary shape stated by the specification: a deterministic
function of the three group counts (and the listed urgent subjects) whose
total is the sum of the group counts. -/
def ruleSummaryShape (h m l : Nat) (highSubjects : List String) : String :=
  String.intercalate " "
    ((["You have " ++ toString (h + m + l) ++ " unread messages."]) ++
      (if h == 0 then [] else
        ["\n🔴 " ++ toString h ++ " urgent message(s): " ++
          String.intercalate ", " (highSubjects.map (fun s => "\"" ++ s ++ "\""))]) ++
      (if m == 0 then [] else
        ["\n🟡 " ++ toString m ++ " medium priority message(s)"]) ++
      (if l == 0 then [] else
        ["\n🟢 " ++ toString l ++ " low priority message(s)"]))

/-- Concrete email list (2 high, 1 medium, 1 low) used in the C6 witness,
matching the spec's example counts. -/
def witnessEmails : List Email :=
  [⟨1, "boss@company.com", "Q4 Budget Review Meeting", "b1", "t1", "high"⟩,
   ⟨2, "bank@payments.com", "Payment Due", "b2", "t2", "high"⟩,
   ⟨3, "newsletter@tech.com", "Latest AI Trends", "b3", "t3", "medium"⟩,
   ⟨4, "fitness@gym.com", "Your Weekly Workout Summary", "b4", "t4", "low"⟩]

/-- Modelled activity row: the engineered features of `activities_df` that
`ActivityAgent.process` groups by cluster. -/
structure ActivityRecord where
  hour : Nat
  day_of_week : Nat
  duration_minutes : Nat
  activity_type : String

/-- First-occurrence deduplication standing in for Python `list(set(...))`
over the top senders. -/
def dedupFirst (l : List String) : List String :=
  l.foldl (fun acc s => if acc.contains s then acc else acc ++ [s]) []

/-- `ActivityAgent.process`: build the routine summary over the four cluster
ids (skipping empty clusters) and publish exactly one `activity_summary`
event. The cluster assignment (`clusterData`) and the per-cluster pandas
statistics (`clusterStats`) are the opaque analytics collaborators. -/
def ActivityAgent.processStep (clusterData : Nat → List ActivityRecord)
    (clusterStats : List ActivityRecord → Value)
    (total : Nat) (now : String) (t : Nat) : List Event :=
  let routine_summary := (List.range 4).foldl
    (fun acc cluster_id =>
      if 0 < (clusterData cluster_id).length then
        acc ++ [("routine_" ++ toString cluster_id,
          clusterStats (clusterData cluster_id))]
      else acc) []
  [{ event_type := "activity_summary", source_agent := "ActivityAgent",
     data := Value.vdict
       [("routines", Value.vdict routine_summary),
        ("total_activities", Value.vint total),
        ("analysis_timestamp", Value.vstr now)],
     timestamp := t }]

/-- `EmailAgent.process`: build the summary via the LLM when available
(falling back to the rule-based summary on any LLM error, mirroring
`_create_llm_summary`'s except branch) or directly rule-based, then publish
exactly one `email_summary` event. -/
def EmailAgent.processStep (llm_available : Bool) (llmResult : Except String String)
    (mock_emails : List Email) (now : String) (t : Nat) : List Event :=
  let summary :=
    if llm_available then
      match llmResult with
      | .ok s => s
      | .error _ => EmailAgent.create_rule_based_summary mock_emails
    else EmailAgent.create_rule_based_summary mock_emails
  [{ event_type := "email_summary", source_agent := "EmailAgent",
     data := Value.vdict
       [("total_unread", Value.vint mock_emails.length),
        ("high_priority_count",
          Value.vint (mock_emails.countP (fun e => e.priority == "high"))),
        ("summary", Value.vstr summary),
        ("top_senders",
          Value.vlist ((dedupFirst ((mock_emails.take 5).map
            (fun e => e.sender))).map Value.vstr)),
        ("analysis_timestamp", Value.vstr now)],
     timestamp := t }]

theorem publishAux_queues (maxsize : Nat) (e : Event) (ts : List QueueId) :
    ∀ (qs : QueueId → List Event) (j : QueueId),
      (publishAux maxsize e ts qs).1 j = putTimes maxsize e (ts.count j) (qs j) := by
  induction ts with
  | nil => intro qs j; simp [publishAux, List.count_nil, putTimes]
  | cons t ts ih =>
    intro qs j
    simp only [publishAux, ih]
    by_cases hj : j = t
    · subst hj
      rw [if_pos rfl, List.count_cons_self]
      rfl
    · rw [if_neg hj, List.count_cons_of_ne hj]

theorem publishAux_log_length (maxsize : Nat) (e : Event) (ts : List QueueId) :
    ∀ (qs : QueueId → List Event),
      (publishAux maxsize e ts qs).2.length = ts.length := by
  induction ts with
  | nil => intro qs; simp [publishAux]
  | cons t ts ih => intro qs; simp [publishAux, ih]

theorem putTimes_append (maxsize : Nat) (e : Event) :
    ∀ (n : Nat) (items : List Event),
      ∃ extra, putTimes maxsize e n items = items ++ extra ∧
        (1 ≤ n → items.length < maxsize → e ∈ extra) := by
  intro n
  induction n with
  | zero =>
    intro items
    exact ⟨[], by simp [putTimes], fun h => absurd h (by omega)⟩
  | succ n ih =>
    intro items
    by_cases hlen : items.length < maxsize
    · obtain ⟨extra, hext, _⟩ := ih (items ++ [e])
      refine ⟨[e] ++ extra, ?_, fun _ _ => by simp⟩
      simp only [putTimes, putEvent, if_pos hlen]
      rw [hext]
      simp
    · obtain ⟨extra, hext, hmem⟩ := ih items
      refine ⟨extra, ?_, fun _ h => absurd h hlen⟩
      simp only [putTimes, putEvent, if_neg hlen]
      exact hext

theorem publish_queues_putTimes (bus : MessageBus) (e : Event) (qid : QueueId) :
    (bus.publish e).1.queues qid
      = putTimes bus.max_queue_size e ((publishTargets bus e).count qid) (bus.queues qid) := by
  simp only [MessageBus.publish]
  exact publishAux_queues bus.max_queue_size e (publishTargets bus e) bus.queues qid

theorem publish_append (bus : MessageBus) (e : Event) (qid : QueueId) :
    ∃ extra, (bus.publish e).1.queues qid = bus.queues qid ++ extra ∧
      (qid ∈ publishTargets bus e → (bus.queues qid).length < bus.max_queue_size →
        e ∈ extra) := by
  rw [publish_queues_putTimes]
  obtain ⟨extra, hext, hmem⟩ :=
    putTimes_append bus.max_queue_size e ((publishTargets bus e).count qid) (bus.queues qid)
  refine ⟨extra, hext, fun hin hlen => hmem ?_ hlen⟩
  have := List.count_pos_iff.mpr hin
  omega

theorem publish_subscribers (bus : MessageBus) (e : Event) :
    (bus.publish e).1.subscribers = bus.subscribers := rfl

theorem publish_max_queue_size (bus : MessageBus) (e : Event) :
    (bus.publish e).1.max_queue_size = bus.max_queue_size := rfl

theorem putTimes_two (maxsize : Nat) (e : Event) (items : List Event)
    (h : items.length + 2 ≤ maxsize) :
    putTimes maxsize e 2 items = items ++ [e, e] := by
  have h1 : items.length < maxsize := by omega
  have h2 : items.length + 1 < maxsize := by omega
  have hrfl : putTimes maxsize e 2 items
      = (putEvent maxsize e (putEvent maxsize e items).1).1 := rfl
  rw [hrfl]
  simp [putEvent, h1, h2]

/-- C1: publishing an event of type T delivers it to every queue registered
under T and under the wildcard (given the queue is below capacity), and
leaves every queue registered under neither T nor the wildcard unchanged. -/
theorem publish_fanout_correct (bus : MessageBus) (e : Event) (qid : QueueId) :
    ((qid ∈ lookupSubs bus.subscribers e.event_type ∨
        qid ∈ lookupSubs bus.subscribers "*") →
      (bus.queues qid).length < bus.max_queue_size →
      e ∈ (bus.publish e).1.queues qid) ∧
    (qid ∉ lookupSubs bus.subscribers e.event_type →
      qid ∉ lookupSubs bus.subscribers "*" →
      (bus.publish e).1.queues qid = bus.queues qid) := by
  constructor
  · intro hin hlen
    obtain ⟨extra, hext, hmem⟩ := publish_append bus e qid
    rw [hext]
    have : qid ∈ publishTargets bus e := by
      rcases hin with h | h
      · exact List.mem_append.mpr (Or.inl h)
      · exact List.mem_append.mpr (Or.inr h)
    exact List.mem_append.mpr (Or.inr (hmem this hlen))
  · intro hT hW
    rw [publish_queues_putTimes]
    have hcount : (publishTargets bus e).count qid = 0 := by
      rw [List.count_eq_zero]
      intro hmem
      rcases List.mem_append.mp hmem with h | h
      · exact hT h
      · exact hW h
    rw [hcount]
    rfl

theorem publish_fanout_correct_witness :
    ((0 ∈ lookupSubs sampleBus.subscribers "finance_insight" ∨
        0 ∈ lookupSubs sampleBus.subscribers "*") ∧
      finEvent ∈ (sampleBus.publish finEvent).1.queues 0) ∧
    finEvent ∈ (sampleBus.publish finEvent).1.queues 1 ∧
    (sampleBus.publish finEvent).1.queues 2 = sampleBus.queues 2 :=
  ⟨⟨Or.inl (by decide),
    (publish_fanout_correct sampleBus finEvent 0).1 (Or.inl (by decide)) (by decide)⟩,
   (publish_fanout_correct sampleBus finEvent 1).1 (Or.inr (by decide)) (by decide),
   (publish_fanout_correct sampleBus finEvent 2).2 (by decide) (by decide)⟩

/-- C2: `publish` is a total function (the per-target try/except means no
error escapes), it produces one delivery-attempt outcome per fan-out target,
and the final contents of each queue depend only on that queue's own prior
contents and its multiplicity among the targets — so a timed-out (full)
queue makes the bus drop for that subscriber only, without affecting
delivery to any other target. -/
theorem publish_attempts_all_targets (bus : MessageBus) (e : Event) :
    (bus.publish e).2.length = (publishTargets bus e).length ∧
    ∀ qid, (bus.publish e).1.queues qid
      = putTimes bus.max_queue_size e ((publishTargets bus e).count qid)
          (bus.queues qid) :=
  ⟨publishAux_log_length bus.max_queue_size e (publishTargets bus e) bus.queues,
   fun qid => publish_queues_putTimes bus e qid⟩

/-- C3: when one source publishes E1 and then E2 and a queue receives both
(it is targeted and below capacity both times), the queue holds E1 strictly
before E2 afterwards. -/
theorem publish_fifo_per_queue (bus : MessageBus) (e1 e2 : Event) (qid : QueueId)
    (h1 : qid ∈ publishTargets bus e1)
    (hlen1 : (bus.queues qid).length < bus.max_queue_size)
    (h2 : qid ∈ publishTargets (bus.publish e1).1 e2)
    (hlen2 : ((bus.publish e1).1.queues qid).length < bus.max_queue_size) :
    ∃ l1 l2 l3, (((bus.publish e1).1).publish e2).1.queues qid
      = l1 ++ e1 :: (l2 ++ e2 :: l3) := by
  obtain ⟨a, ha, hmema⟩ := publish_append bus e1 qid
  have he1 : e1 ∈ a := hmema h1 hlen1
  obtain ⟨b, hb, hmemb⟩ := publish_append (bus.publish e1).1 e2 qid
  have he2 : e2 ∈ b := hmemb h2 (by rw [publish_max_queue_size]; exact hlen2)
  obtain ⟨s1, t1, rfl⟩ := List.append_of_mem he1
  obtain ⟨s2, t2, rfl⟩ := List.append_of_mem he2
  refine ⟨bus.queues qid ++ s1, t1 ++ s2, t2, ?_⟩
  rw [hb, ha]
  simp

theorem publish_fifo_per_queue_witness :
    1 ∈ publishTargets sampleBus finEvent ∧
    ∃ l1 l2 l3, (((sampleBus.publish finEvent).1).publish finEvent2).1.queues 1
      = l1 ++ finEvent :: (l2 ++ finEvent2 :: l3) :=
  ⟨by decide,
   publish_fifo_per_queue sampleBus finEvent finEvent2 1
     (by decide) (by decide) (by decide) (by decide)⟩

theorem lastN_append_left (n : Nat) (pre zs : List α) (h : n ≤ zs.length) :
    lastN n (pre ++ zs) = lastN n zs := by
  unfold lastN
  rw [List.length_append, show pre.length + zs.length - n
      = pre.length + (zs.length - n) from by omega, List.drop_append]

theorem lastN_of_le (n : Nat) (l : List α) (h : l.length ≤ n) : lastN n l = l := by
  unfold lastN
  rw [show l.length - n = 0 from by omega, List.drop_zero]

theorem lastN_length_le (n : Nat) (l : List α) : (lastN n l).length ≤ n := by
  unfold lastN
  rw [List.length_drop]
  omega

theorem lastN_lastN_append (xs ys : List α) :
    lastN 100 (lastN 100 xs ++ ys) = lastN 100 (xs ++ ys) := by
  by_cases h : 100 ≤ xs.length
  · have hsplit : xs.take (xs.length - 100) ++ lastN 100 xs = xs :=
      List.take_append_drop (xs.length - 100) xs
    have hlen : 100 ≤ (lastN 100 xs ++ ys).length := by
      rw [List.length_append]
      unfold lastN
      rw [List.length_drop]
      omega
    calc lastN 100 (lastN 100 xs ++ ys)
        = lastN 100 (xs.take (xs.length - 100) ++ (lastN 100 xs ++ ys)) :=
          (lastN_append_left 100 _ _ hlen).symm
      _ = lastN 100 (xs ++ ys) := by rw [← List.append_assoc, hsplit]
  · rw [lastN_of_le 100 xs (by omega)]

theorem capHistory_eq_lastN (history : List InsightPackage) (pkg : InsightPackage) :
    capHistory history pkg = lastN 100 (history ++ [pkg]) := by
  unfold capHistory
  by_cases hl : 100 < (history ++ [pkg]).length
  · rw [if_pos hl]; rfl
  · rw [if_neg hl, lastN_of_le 100 _ (by omega)]

theorem capHistory_length_le (history : List InsightPackage) (pkg : InsightPackage) :
    (capHistory history pkg).length ≤ 100 := by
  rw [capHistory_eq_lastN history pkg]
  exact lastN_length_le 100 _

theorem foldl_capHistory (ps : List InsightPackage) :
    ∀ init, init.length ≤ 100 → ps.foldl capHistory init = lastN 100 (init ++ ps) := by
  induction ps with
  | nil =>
    intro init h
    rw [List.foldl_nil, List.append_nil, lastN_of_le 100 init h]
  | cons p ps ih =>
    intro init _
    rw [List.foldl_cons, ih _ (capHistory_length_le init p),
      capHistory_eq_lastN init p, lastN_lastN_append]
    congr 1
    simp

theorem afterCycles_history (genText : CollectedInsights → String)
    (cs : List (List Event × String × Nat)) :
    ∀ st, (InsightAgent.afterCycles genText st cs).insight_history
      = (InsightAgent.cyclePackages genText st cs).foldl capHistory
          st.insight_history := by
  induction cs with
  | nil => intro st; rfl
  | cons c cs ih =>
    intro st
    rw [show InsightAgent.afterCycles genText st (c :: cs)
        = InsightAgent.afterCycles genText (InsightAgent.cycle genText st c) cs
        from rfl, ih]
    rfl

theorem cyclePackages_length (genText : CollectedInsights → String)
    (cs : List (List Event × String × Nat)) :
    ∀ st, (InsightAgent.cyclePackages genText st cs).length = cs.length := by
  induction cs with
  | nil => intro st; rfl
  | cons c cs ih =>
    intro st
    simp [InsightAgent.cyclePackages, ih]

/-- C4: starting from an empty history, after any sequence of aggregator
cycles the retained history has at most 100 entries, and once more than 100
snapshots have been appended it is exactly the snapshots of the 100 most
recent cycles in append order (oldest evicted first). -/
theorem insight_history_cap (genText : CollectedInsights → String)
    (cs : List (List Event × String × Nat)) (st : InsightState)
    (hinit : st.insight_history = []) :
    ((InsightAgent.afterCycles genText st cs).insight_history).length ≤ 100 ∧
    (100 < cs.length →
      (InsightAgent.afterCycles genText st cs).insight_history
        = (InsightAgent.cyclePackages genText st cs).drop (cs.length - 100)) := by
  have h := afterCycles_history genText cs st
  rw [hinit, foldl_capHistory _ [] (by simp), List.nil_append] at h
  rw [h]
  constructor
  · exact lastN_length_le 100 _
  · intro h100
    unfold lastN
    rw [cyclePackages_length genText cs st]

theorem insight_history_cap_witness :
    initialInsightState.insight_history = [] ∧
    100 < trivialCycles.length ∧
    ((InsightAgent.afterCycles (fun _ => "") initialInsightState
        trivialCycles).insight_history).length ≤ 100 ∧
    (InsightAgent.afterCycles (fun _ => "") initialInsightState
        trivialCycles).insight_history
      = (InsightAgent.cyclePackages (fun _ => "") initialInsightState
          trivialCycles).drop (trivialCycles.length - 100) := by
  have h := insight_history_cap (fun _ => "") trivialCycles initialInsightState rfl
  have hlen : 100 < trivialCycles.length := by simp [trivialCycles]
  exact ⟨rfl, hlen, h.1, h.2 hlen⟩

/-- C5: starting from empty accumulated state, consuming an
`activity_summary` event and then a `finance_insight` event and running the
periodic step publishes a single `daily_insight` event whose payload's
`data_freshness` map is exactly activity=true, finance=true, email=false. -/
theorem aggregator_freshness (genText : CollectedInsights → String) (now : String)
    (t : Nat) (e1 e2 : Event)
    (h1 : e1.event_type = "activity_summary")
    (h2 : e2.event_type = "finance_insight") :
    ((InsightAgent.processStep genText now t
        { initialInsightState with
            collected := consumeAll initialInsightState.collected [e1, e2] }).2.map
      (fun ev => ev.data.getKey "data_freshness"))
      = [some (Value.vdict
          [("activity", Value.vbool true), ("finance", Value.vbool true),
           ("email", Value.vbool false)])] := by
  simp [InsightAgent.processStep, consumeAll, consumeEvent, h1, h2,
    mkInsightPackage, dataFreshness, pkgToValue, Value.getKey, initialInsightState]

theorem aggregator_freshness_witness :
    actEvent.event_type = "activity_summary" ∧
    finEvent.event_type = "finance_insight" ∧
    ((InsightAgent.processStep (fun _ => "") "2024-01-01" 0
        { initialInsightState with
            collected := consumeAll initialInsightState.collected
              [actEvent, finEvent] }).2.map
      (fun ev => ev.data.getKey "data_freshness"))
      = [some (Value.vdict
          [("activity", Value.vbool true), ("finance", Value.vbool true),
           ("email", Value.vbool false)])] :=
  ⟨rfl, rfl, aggregator_freshness (fun _ => "") "2024-01-01" 0 actEvent finEvent rfl rfl⟩

/-- C10: publishing an event whose type is the literal string `"*"` puts the
wildcard queues into the target list twice (once via the exact-type branch,
once via the wildcard branch), so a wildcard subscriber appearing once in
the registry receives the event twice from a single publish (given room for
two entries). -/
theorem wildcard_double_delivery (bus : MessageBus) (e : Event) (qid : QueueId)
    (ht : e.event_type = "*")
    (hcount : (lookupSubs bus.subscribers "*").count qid = 1)
    (hroom : (bus.queues qid).length + 2 ≤ bus.max_queue_size) :
    publishTargets bus e
      = lookupSubs bus.subscribers "*" ++ lookupSubs bus.subscribers "*" ∧
    (bus.publish e).1.queues qid = bus.queues qid ++ [e, e] := by
  constructor
  · simp [publishTargets, ht]
  · rw [publish_queues_putTimes]
    have hc : (publishTargets bus e).count qid = 2 := by
      simp [publishTargets, ht, List.count_append, hcount]
    rw [hc]
    exact putTimes_two bus.max_queue_size e (bus.queues qid) hroom

theorem wildcard_double_delivery_witness :
    (lookupSubs wildcardBus.subscribers "*").count 0 = 1 ∧
    publishTargets wildcardBus starEvent
      = lookupSubs wildcardBus.subscribers "*" ++ lookupSubs wildcardBus.subscribers "*" ∧
    (wildcardBus.publish starEvent).1.queues 0
      = wildcardBus.queues 0 ++ [starEvent, starEvent] :=
  ⟨by decide, wildcard_double_delivery wildcardBus starEvent 0 rfl (by decide) (by decide)⟩

theorem agentLoop_attempts (proc : Nat → Except String Unit)
    (runningAt : Nat → Bool) :
    ∀ (n k : Nat), (∀ i, i < n → runningAt (k + i) = true) →
      (agentLoop proc runningAt n k).countP isAttempt = n := by
  intro n
  induction n with
  | zero => intro k _; rfl
  | succ n ih =>
    intro k h
    have hk : runningAt k = true := by
      have := h 0 (by omega)
      simpa using this
    have hshift : ∀ i, i < n → runningAt (k + 1 + i) = true := by
      intro i hi
      have := h (i + 1) (by omega)
      rw [show k + 1 + i = k + (i + 1) from by omega]
      exact this
    cases hp : proc k with
    | ok u =>
      simp [agentLoop, hk, hp, List.countP_cons, isAttempt, ih (k + 1) hshift]
    | error msg =>
      simp [agentLoop, hk, hp, List.countP_cons, isAttempt, ih (k + 1) hshift]

/-- C7: an error raised by the k-th processing step is caught at the loop
boundary — the trace records the failed attempt, then the fixed 5-second
recovery sleep, and the loop goes on to iteration k+1; moreover over any
window in which the running flag stays true, the number of processing
attempts equals the number of iterations, whatever the outcomes — an error
never terminates the worker while its running flag is true. (No error can
escape: `agentLoop` is total with an error-free codomain, mirroring the
source's try/except.) -/
theorem process_error_recovery (proc : Nat → Except String Unit)
    (runningAt : Nat → Bool) (fuel k : Nat) (msg : String)
    (hrun : runningAt k = true) (herr : proc k = .error msg) :
    agentLoop proc runningAt (fuel + 1) k
      = Step.processErr k msg :: Step.sleepRecovery ::
          agentLoop proc runningAt fuel (k + 1) ∧
    ∀ n, (∀ i, i < n → runningAt (k + i) = true) →
      (agentLoop proc runningAt n k).countP isAttempt = n := by
  constructor
  · simp [agentLoop, hrun, herr]
  · intro n h
    exact agentLoop_attempts proc runningAt n k h

theorem process_error_recovery_witness :
    (fun _ : Nat => (true : Bool)) 0 = true ∧
    (fun _ : Nat => (Except.error "boom" : Except String Unit)) 0
      = Except.error "boom" ∧
    agentLoop (fun _ => Except.error "boom") (fun _ => true) 4 0
      = Step.processErr 0 "boom" :: Step.sleepRecovery ::
          agentLoop (fun _ => Except.error "boom") (fun _ => true) 3 1 ∧
    (agentLoop (fun _ => Except.error "boom") (fun _ => true) 4 0).countP isAttempt
      = 4 :=
  have h := process_error_recovery (fun _ => Except.error "boom") (fun _ => true)
    3 0 "boom" rfl rfl
  ⟨rfl, rfl, h.1, h.2 4 (fun _ _ => rfl)⟩

/-- C8: when `initialize()` fails, `run()` terminates with no processing
attempt in its trace; `agentRun` is total with an error-free codomain, so
the failure does not propagate out of `run` (the supervisor and other
workers never see it). -/
theorem init_failure_terminates (initRes : Except String Unit)
    (proc : Nat → Except String Unit) (runningAt : Nat → Bool) (fuel : Nat)
    (msg : String) (hfail : initRes = .error msg) :
    agentRun initRes proc runningAt fuel = [Step.initFailed msg, Step.stopped] ∧
    ∀ s ∈ agentRun initRes proc runningAt fuel, isAttempt s = false := by
  subst hfail
  refine ⟨rfl, ?_⟩
  intro s hs
  simp only [agentRun, List.cons_append, List.nil_append, List.mem_cons,
    List.mem_singleton] at hs
  rcases hs with rfl | rfl | h
  · rfl
  · rfl
  · simp at h

theorem init_failure_terminates_witness :
    (Except.error "no data" : Except String Unit) = Except.error "no data" ∧
    agentRun (Except.error "no data") (fun _ => Except.ok ()) (fun _ => true) 7
      = [Step.initFailed "no data", Step.stopped] ∧
    ∀ s ∈ agentRun (Except.error "no data") (fun _ => Except.ok ()) (fun _ => true) 7,
      isAttempt s = false :=
  have h := init_failure_terminates (Except.error "no data")
    (fun _ => Except.ok ()) (fun _ => true) 7 "no data" rfl
  ⟨rfl, h.1, h.2⟩

theorem isEmpty_eq_length_beq (l : List α) : l.isEmpty = (l.length == 0) := by
  cases l <;> rfl

theorem email_length_partition (emails : List Email)
    (hpart : ∀ e ∈ emails,
      e.priority = "high" ∨ e.priority = "medium" ∨ e.priority = "low") :
    emails.length
      = (emails.filter (fun e => e.priority == "high")).length
        + (emails.filter (fun e => e.priority == "medium")).length
        + (emails.filter (fun e => e.priority == "low")).length := by
  induction emails with
  | nil => rfl
  | cons e es ih =>
    have he := hpart e (List.mem_cons_self e es)
    have hes := fun x hx => hpart x (List.mem_cons_of_mem e hx)
    have ihs := ih hes
    rcases he with h | h | h <;>
      simp [List.filter_cons, h, ihs] <;> omega

/-- C6: the rule-based fallback summary is a deterministic function of the
email list — for any list whose emails all carry one of the three priority
strings, the produced text is exactly the spec's shape: it reports the total
as the sum h+m+l of the group counts and, for each non-empty group, that
group's exact count. -/
theorem rule_summary_counts (emails : List Email)
    (hpart : ∀ e ∈ emails,
      e.priority = "high" ∨ e.priority = "medium" ∨ e.priority = "low") :
    EmailAgent.create_rule_based_summary emails
      = ruleSummaryShape
          (emails.filter (fun e => e.priority == "high")).length
          (emails.filter (fun e => e.priority == "medium")).length
          (emails.filter (fun e => e.priority == "low")).length
          (((emails.filter (fun e => e.priority == "high")).take 2).map
            (fun e => e.subject)) := by
  have hlen := email_length_partition emails hpart
  simp only [EmailAgent.create_rule_based_summary, ruleSummaryShape,
    isEmpty_eq_length_beq, List.map_map]
  rw [hlen]
  rfl

theorem rule_summary_counts_witness :
    (∀ e ∈ witnessEmails,
      e.priority = "high" ∨ e.priority = "medium" ∨ e.priority = "low") ∧
    EmailAgent.create_rule_based_summary witnessEmails
      = ruleSummaryShape
          (witnessEmails.filter (fun e => e.priority == "high")).length
          (witnessEmails.filter (fun e => e.priority == "medium")).length
          (witnessEmails.filter (fun e => e.priority == "low")).length
          (((witnessEmails.filter (fun e => e.priority == "high")).take 2).map
            (fun e => e.subject)) :=
  ⟨by decide, rule_summary_counts witnessEmails (by decide)⟩

/-- C9: every successful processing step of the activity, email and
aggregator roles publishes exactly one event — whatever the opaque analytics
results, the LLM availability/outcome, and the accumulated state. -/
theorem one_event_per_cycle
    (clusterData : Nat → List ActivityRecord)
    (clusterStats : List ActivityRecord → Value)
    (total : Nat) (nowA : String) (tA : Nat)
    (llm_available : Bool) (llmResult : Except String String)
    (mock_emails : List Email) (nowE : String) (tE : Nat)
    (genText : CollectedInsights → String) (nowI : String) (tI : Nat)
    (st : InsightState) :
    (ActivityAgent.processStep clusterData clusterStats total nowA tA).length = 1 ∧
    (EmailAgent.processStep llm_available llmResult mock_emails nowE tE).length = 1 ∧
    ((InsightAgent.processStep genText nowI tI st).2).length = 1 :=
  ⟨rfl, rfl, rfl⟩

end LifeLoop
